import Mathlib

/-!
Verification of the Yahoo-news ingestion / classification pipeline
(`main.py`) against its natural-language specification.

The Python source is shallowly embedded: pure fragments become Lean
functions over `String` / `List` / `Int`; the Google-Sheets store and the
Gemini service are external collaborators, so their outputs (cell rows,
response texts) are parameters of the embedded functions.  Wall-clock
timestamps are modelled as seconds in the fixed UTC+9 offset, which is
order-isomorphic to the `datetime` comparisons the source performs.
-/

namespace YahooCut

/-! ## String utilities

`strContains t kw` models the Python substring test `kw in t`.
-/

/-- Does `p` occur as a prefix of `l`? (character lists) -/
def listStartsWith : List Char → List Char → Bool
  | [], _ => true
  | _ :: _, [] => false
  | p :: ps, c :: cs => p == c && listStartsWith ps cs

/-- Does `p` occur as a contiguous sublist of `l`? -/
def subOccurs (p : List Char) : List Char → Bool
  | [] => p.isEmpty
  | c :: cs => listStartsWith p (c :: cs) || subOccurs p cs

/-- Python's `kw in t` substring test. -/
def strContains (t kw : String) : Bool :=
  subOccurs kw.data t.data

/-- Python `str.strip()` / regex whitespace class, restricted to the
whitespace characters that can occur in this pipeline's data
(ASCII whitespace, vertical tab, form feed and the ideographic space). -/
def isPyWs (c : Char) : Bool :=
  c == ' ' || c == '\t' || c == '\n' || c == '\r' ||
  c == Char.ofNat 11 || c == Char.ofNat 12 || c == Char.ofNat 0x3000

/-- Python `str.strip()`: drop leading and trailing whitespace. -/
def pyStrip (s : String) : String :=
  String.mk (((s.data.dropWhile isPyWs).reverse.dropWhile isPyWs).reverse)

/-! ## Rule-based classifier (`fallback_sentiment` / `fallback_category`,
`main.py` lines 33-82) -/

def NISSAN_WORDS : List String := ["ニッサン", "日産", "NISSAN", "Nissan"]

def OTHER_MAKERS : List String :=
  ["トヨタ", "TOYOTA", "Toyota", "ホンダ", "HONDA", "Honda", "スバル", "SUBARU", "Subaru",
   "マツダ", "MAZDA", "Mazda", "スズキ", "SUZUKI", "Suzuki", "ミツビシ", "三菱",
   "MITSUBISHI", "Mitsubishi", "ダイハツ", "DAIHATSU", "Daihatsu"]

def POS_KW : List String :=
  ["受注開始", "発売", "発表", "好発進", "優勝", "開催へ", "出会える", "目指す", "わかった",
   "メリット", "最適", "ナイス", "選ばれたワケ", "参戦", "総合優勝へ"]

def NEG_KW : List String :=
  ["事故", "リコール", "リストラ", "値上げ", "中止", "苦戦", "不正", "炎上", "失業",
   "没個性？", "なぜ進化しない", "問題", "課題"]

/-- `fallback_sentiment` (`main.py` lines 39-45). -/
def fallback_sentiment (title : String) : String :=
  if POS_KW.any (fun k => strContains title k) && !(NEG_KW.any (fun k => strContains title k)) then
    "ポジティブ"
  else if NEG_KW.any (fun k => strContains title k) && !(POS_KW.any (fun k => strContains title k)) then
    "ネガティブ"
  else
    "ニュートラル"

def MOTOR_KW : List String :=
  ["F1", "フォーミュラE", "ラリー", "WRC", "Super GT", "スーパーＧＴ", "スプリントレース", "参戦"]

def EV_KW : List String :=
  ["EV化", "電気自動車", " EV", "EV ", "バッテリー", "電動", "充電", "ソリッドステート"]

def EPOWER_KW : List String := ["e-POWER", "e POWER", "ePOWER"]

def E4ORCE_KW : List String := ["e-4ORCE", "E-4ORCE", "4WD", "AWD", "2WD"]

def TECH_KW : List String :=
  ["自動運転", "ADAS", "運転支援", "先進運転支援", "L2", "L3", "プラットフォーム", "空力",
   "エアロ", "技術"]

def STOCK_KW : List String := ["株価", "上場", "発行株式", "投資家", "決算", "通期見通し"]

def POLI_KW : List String := ["政治", "選挙", "税", "経済", "景気", "物価"]

def SPORTS_KW : List String := ["野球", "サッカー", "バレーボール", "ラグビー", "W杯", "五輪"]

/-! The vehicle-model test on `main.py` line 62 is the case-insensitive
regex alternation
`(RAV4|CX-[0-9]|GR\s?\w+|シルビア|フォレスター|ウルス|スープラ|マイクラ|スカイライン|セレナ|ノート)`.
`re.search` asks whether it matches at some position of the title.  The
regex word-character class is modelled for the character ranges occurring
in this pipeline's titles: ASCII alphanumerics, the underscore, and the
Japanese kana / CJK / fullwidth-letter blocks. -/

/-- Model of the regex word-character class for this pipeline's alphabet. -/
def isPyWordChar (c : Char) : Bool :=
  c.isAlphanum || c == '_' ||
  (0x3040 ≤ c.toNat && c.toNat ≤ 0x30FF) ||      -- hiragana and katakana
  (0x3400 ≤ c.toNat && c.toNat ≤ 0x9FFF) ||      -- CJK ideographs
  (0xFF10 ≤ c.toNat && c.toNat ≤ 0xFF19) ||      -- fullwidth digits
  (0xFF21 ≤ c.toNat && c.toNat ≤ 0xFF3A) ||      -- fullwidth capitals
  (0xFF41 ≤ c.toNat && c.toNat ≤ 0xFF5A) ||      -- fullwidth small letters
  (0xFF66 ≤ c.toNat && c.toNat ≤ 0xFF9F)         -- halfwidth katakana

/-- Case-insensitive prefix test (the regex is compiled with `re.I`). -/
def ciStartsWith : List Char → List Char → Bool
  | [], _ => true
  | _ :: _, [] => false
  | p :: ps, c :: cs => p.toLower == c.toLower && ciStartsWith ps cs

/-- One position of the vehicle-model alternation: does some alternative
match at the head of `l`? -/
def vehicleAltAt (l : List Char) : Bool :=
  ciStartsWith "RAV4".data l ||
  (ciStartsWith "CX-".data l && (match l.drop 3 with
    | d :: _ => d.isDigit
    | [] => false)) ||
  (ciStartsWith "GR".data l && (match l.drop 2 with
    | c :: rest =>
      isPyWordChar c || (isPyWs c && (match rest with
        | d :: _ => isPyWordChar d
        | [] => false))
    | [] => false)) ||
  ciStartsWith "シルビア".data l || ciStartsWith "フォレスター".data l ||
  ciStartsWith "ウルス".data l || ciStartsWith "スープラ".data l ||
  ciStartsWith "マイクラ".data l || ciStartsWith "スカイライン".data l ||
  ciStartsWith "セレナ".data l || ciStartsWith "ノート".data l

/-- Does the alternation match at some suffix position (`re.search`)? -/
def vehicleRegex (t : String) : Bool :=
  go t.data
where
  go : List Char → Bool
    | [] => vehicleAltAt []
    | c :: cs => vehicleAltAt (c :: cs) || go cs

/-- `fallback_category` (`main.py` lines 47-82).  The trailing `for` loop
over `OTHER_MAKERS` is the first maker keyword found in the title. -/
def fallback_category (title : String) : String :=
  if MOTOR_KW.any (fun k => strContains title k) then "モータースポーツ"
  else if EV_KW.any (fun k => strContains title k) then "技術（EV）"
  else if EPOWER_KW.any (fun k => strContains title k) then "技術（e-POWER）"
  else if E4ORCE_KW.any (fun k => strContains title k) then "技術（e-4ORCE）"
  else if TECH_KW.any (fun k => strContains title k) then "技術"
  else if vehicleRegex title then
    (if NISSAN_WORDS.any (fun w => strContains title w) then
      (if strContains title "新型" then "車（新型）"
       else if strContains title "現行" then "車（現行）"
       else if strContains title "旧型" then "車（旧型）"
       else "車")
     else "車（競合）")
  else if NISSAN_WORDS.any (fun w => strContains title w) then "会社（ニッサン）"
  else match OTHER_MAKERS.find? (fun comp => strContains title comp) with
    | some comp => "会社（" ++ comp ++ "）"
    | none =>
      if STOCK_KW.any (fun k => strContains title k) then "株式"
      else if POLI_KW.any (fun k => strContains title k) then "政治・経済"
      else if SPORTS_KW.any (fun k => strContains title k) then "スポーツ"
      else "その他"

/-! ## Window filter (`main.py` lines 178-181, 262-264)

`today` is the run's "now" in UTC+9; `yesterday = today - 1 day`;
`start_time = yesterday.replace(hour=15, minute=0, second=0)`;
`end_time = today.replace(hour=14, minute=59, second=59)`.
A timestamp is a count of seconds in the fixed UTC+9 offset, which is
order-isomorphic to comparison of aware `datetime` values.  The window
bounds depend only on the calendar day of "now". -/

/-- The run's "now": its UTC+9 calendar day and the second within it. -/
structure JstNow where
  days : Int
  secs : Int

/-- `start_time` as absolute UTC+9 seconds: day-1 at 15:00:00. -/
def windowStart (now : JstNow) : Int := (now.days - 1) * 86400 + 15 * 3600

/-- `end_time` as absolute UTC+9 seconds: day at 14:59:59. -/
def windowEnd (now : JstNow) : Int := now.days * 86400 + 14 * 3600 + 59 * 60 + 59

/-- `start_time <= post_date <= end_time`. -/
def inWindow (startT endT t : Int) : Bool :=
  decide (startT ≤ t) && decide (t ≤ endT)

/-! ## Ingestion: URL dedup set and the collection loop
(`main.py` lines 212-220 and 234-268) -/

/-- One source row of the `Yahoo` sheet (columns A-D), with the posted
date already put through the date-normalisation block of lines 246-263:
`postDate` is its result in UTC+9 seconds, `none` when unparsable. -/
structure SourceRow where
  title : String
  url : String
  postDate : Option Int
  source : String
deriving DecidableEq, Repr

/-- Lines 212-218: the URL set loaded from the destination tab before the
run appends anything.  A Python `set` is modelled as the list of URLs
added to it; only membership is ever consulted. -/
def existingUrls (existingData : List (List String)) : List String :=
  match existingData with
  | [] => []
  | firstRow :: rest =>
    if firstRow.headD "" == "ソース" && !firstRow.isEmpty then
      rest.filterMap (fun row =>
        if h : 2 < row.length then
          (if row.get ⟨2, h⟩ ≠ "" then some (row.get ⟨2, h⟩) else none)
        else none)
    else []

/-- Lines 234-268: keep the source rows (in order) whose normalised date
falls inside the window and whose URL is not in the destination set.
Accepting a row does not change the set. -/
def collectNews (startT endT : Int) (urls : List String) (rows : List SourceRow) :
    List SourceRow :=
  rows.filter (fun r =>
    match r.postDate with
    | some t => inWindow startT endT t && !(urls.contains r.url)
    | none => false)

/-! ## Sequencing and row building (`main.py` lines 281-311) -/

/-- The numeric value of a list of decimal digit characters. -/
def digitsToNat (ds : List Char) : Nat :=
  ds.foldl (fun n c => n * 10 + (c.toNat - 48)) 0

/-- Python `int(str)`: optional surrounding whitespace, optional sign,
then decimal digits; anything else raises (`none`).  (Digit-grouping
underscores are not modelled.) -/
def pyInt (s : String) : Option Int :=
  match (pyStrip s).data with
  | [] => none
  | '-' :: ds =>
    if !ds.isEmpty && ds.all Char.isDigit then some (-(digitsToNat ds : Int)) else none
  | '+' :: ds =>
    if !ds.isEmpty && ds.all Char.isDigit then some ((digitsToNat ds : Int)) else none
  | ds =>
    if ds.all Char.isDigit then some ((digitsToNat ds : Int)) else none

/-- Lines 284-291: the starting sequence number, read from cell index 11
(column L) of the last existing destination row; `0` when there is no
prior data, no header, or the cell is missing or unparsable
(`int(...)` raising is the `none` case of `pyInt`). -/
def startLNumber (existingData : List (List String)) (headerExists : Bool) : Int :=
  if headerExists && existingData.length > 1 then
    match existingData.getLast? with
    | some lastRow =>
      if h : 11 < lastRow.length then
        (match pyInt (lastRow.get ⟨11, h⟩) with
         | some n => n
         | none => 0)
      else 0
    | none => 0
  else 0

/-- Line 304: strip a fixed character set from the title, keep the first
20 characters (column K). -/
def kExtract (title : String) : String :=
  String.mk ((title.data.filter (fun c => !(" ,.-_<>【】「」()".data.contains c))).take 20)

/-- Line 301: the duplicate-check formula for column J. -/
def jFormula (cur lastRow : Nat) : String :=
  "=IF(ISERROR(VLOOKUP(K" ++ toString cur ++ ",K" ++ toString (cur + 1) ++ ":L" ++
    toString lastRow ++ ",2,FALSE)),\"ダブり無し\",VLOOKUP(K" ++ toString cur ++ ",K" ++
    toString (cur + 1) ++ ":L" ++ toString lastRow ++ ",2,FALSE))"

/-- Lines 293-311: the rows appended to the destination (cells rendered as
the strings a later `values().get` read returns; the integer L cell reads
back as its decimal rendering).  `dateFmt` abstracts the
`strftime('%Y/%m/%d')` rendering of the posted date, which no claim
depends on. -/
def dataToAppend (existingData : List (List String)) (headerExists : Bool)
    (collected : List SourceRow) (dateFmt : Int → String) : List (List String) :=
  let lastRowAfter := existingData.length + collected.length +
    (if headerExists then 0 else 1)
  let startL := startLNumber existingData headerExists
  (List.range collected.length).map (fun i =>
    let r := collected.getD i ⟨"", "", none, ""⟩
    let cur := existingData.length + 1 + i + (if headerExists then 0 else 1)
    ["Yahoo", r.title, r.url,
     (match r.postDate with | some t => dateFmt t | none => ""), r.source,
     "", "", "", "",
     jFormula cur lastRowAfter, kExtract r.title,
     toString (startL + (i : Int) + 1)])

/-- The column-L numbers a batch of `k` accepted records receives
(line 308: `l_value = start_l_number + i + 1`). -/
def lVals (startL : Int) (k : Nat) : List Int :=
  (List.range k).map (fun (i : Nat) => startL + (i : Int) + 1)

/-! ## Classification pass: items, the results dictionary and the
write-back values (`main.py` lines 344-396) -/

/-- Python `dict` assignment `m[k] = v`: overwrite in place when the key
exists, append otherwise.  The dictionary is its ordered entry list. -/
def dInsert (m : List (String × α)) (k : String) (v : α) : List (String × α) :=
  if m.any (fun p => p.1 == k) then
    m.map (fun p => if p.1 == k then (k, v) else p)
  else m ++ [(k, v)]

/-- Python `m.get(k)` ( = `none` when absent). -/
def rmLookup (m : List (String × α)) (k : String) : Option α :=
  (m.find? (fun p => p.1 == k)).map (fun p => p.2)

/-- Lines 345-349 and 374-380: the classification identifier of the sheet
row `i` (`i = 2` for the first data row): the stripped L-column cell when
present and non-blank, else the decimal row number. -/
def idxFor (numbers : List String) (i : Nat) : String :=
  match numbers.get? (i - 2) with
  | some cell => if pyStrip cell == "" then toString i else pyStrip cell
  | none => toString i

/-- Lines 344-349: the classification items, skipping blank titles;
`i` is the sheet row of the head of `titles`. -/
def itemsAux (numbers : List String) : Nat → List String → List (String × String)
  | _, [] => []
  | i, t :: rest =>
    if pyStrip t == "" then itemsAux numbers (i + 1) rest
    else (idxFor numbers i, t) :: itemsAux numbers (i + 1) rest

/-- The item list built from the destination's title and number columns. -/
def itemsOf (titles numbers : List String) : List (String × String) :=
  itemsAux numbers 2 titles

/-! ## JSON values and `json.loads` (used by `ensure_json_array`,
`main.py` lines 132-136)

`json.loads` is embedded as a fuel-indexed recursive-descent parser for
the JSON grammar Python accepts (including the `NaN` / `Infinity`
constants); numbers are kept as their lexemes.  A JSON string decodes to
a Python `str`, so `jstr` doubles as the embedding of Python strings
inside parsed values. -/

inductive JVal where
  | jnull
  | jbool (b : Bool)
  | jnum (lexeme : String)
  | jstr (s : String)
  | jarr (elems : List JVal)
  | jobj (fields : List (String × JVal))

def lbrace : Char := Char.ofNat 123

def rbrace : Char := Char.ofNat 125

/-- Strict-JSON whitespace (what `json.loads` skips between tokens). -/
def isJsonWs (c : Char) : Bool :=
  c == ' ' || c == '\t' || c == '\n' || c == '\r'

def hexVal (c : Char) : Option Nat :=
  if c.isDigit then some (c.toNat - 48)
  else if 'a' ≤ c && c ≤ 'f' then some (c.toNat - 87)
  else if 'A' ≤ c && c ≤ 'F' then some (c.toNat - 55)
  else none

/-- The body of a JSON string after its opening quote: the decoded
characters and the input after the closing quote.  Raw control
characters are rejected, as in strict-mode `json.loads`. -/
def parseStrBody : List Char → Option (List Char × List Char)
  | [] => none
  | c :: rest =>
    if c == '"' then some ([], rest)
    else if c == '\\' then
      match rest with
      | 'u' :: h1 :: h2 :: h3 :: h4 :: r2 =>
        match hexVal h1, hexVal h2, hexVal h3, hexVal h4 with
        | some a, some b, some d, some e =>
          (parseStrBody r2).map (fun p => (Char.ofNat (((a * 16 + b) * 16 + d) * 16 + e) :: p.1, p.2))
        | _, _, _, _ => none
      | e :: r2 =>
        (match (if e == '"' then some '"'
                else if e == '\\' then some '\\'
                else if e == '/' then some '/'
                else if e == 'b' then some (Char.ofNat 8)
                else if e == 'f' then some (Char.ofNat 12)
                else if e == 'n' then some '\n'
                else if e == 'r' then some '\r'
                else if e == 't' then some '\t'
                else none) with
         | some d => (parseStrBody r2).map (fun p => (d :: p.1, p.2))
         | none => none)
      | [] => none
    else if c.toNat < 32 then none
    else (parseStrBody rest).map (fun p => (c :: p.1, p.2))

/-- A JSON number lexeme (Python's `NUMBER_RE`): optional minus,
integer part without leading zeros, optional fraction, optional
exponent.  Returns the lexeme and the rest. -/
def parseNum (l : List Char) : Option (List Char × List Char) :=
  let (sign, l1) :=
    match l with
    | '-' :: r => (['-'], r)
    | _ => (([] : List Char), l)
  match l1 with
  | d :: r =>
    if d == '0' then
      let (frac, r2) := parseFrac r
      let (ex, r3) := parseExp r2
      some (sign ++ '0' :: frac ++ ex, r3)
    else if d.isDigit then
      let ds := r.takeWhile Char.isDigit
      let r1 := r.dropWhile Char.isDigit
      let (frac, r2) := parseFrac r1
      let (ex, r3) := parseExp r2
      some (sign ++ d :: ds ++ frac ++ ex, r3)
    else none
  | [] => none
where
  parseFrac : List Char → List Char × List Char
    | '.' :: r =>
      if (r.takeWhile Char.isDigit).isEmpty then ([], '.' :: r)
      else ('.' :: r.takeWhile Char.isDigit, r.dropWhile Char.isDigit)
    | r => ([], r)
  parseExp : List Char → List Char × List Char
    | e :: r =>
      if e == 'e' || e == 'E' then
        match r with
        | s :: r2 =>
          if s == '+' || s == '-' then
            (if (r2.takeWhile Char.isDigit).isEmpty then ([], e :: s :: r2)
             else (e :: s :: r2.takeWhile Char.isDigit, r2.dropWhile Char.isDigit))
          else if s.isDigit then
            (e :: (s :: r2).takeWhile Char.isDigit, (s :: r2).dropWhile Char.isDigit)
          else ([], e :: s :: r2)
        | [] => ([], [e])
      else ([], e :: r)
    | [] => ([], [])

mutual

/-- One JSON value (leading whitespace allowed), returning the rest of
the input. -/
def parseVal : Nat → List Char → Option (JVal × List Char)
  | 0, _ => none
  | fuel + 1, l0 =>
    let l := l0.dropWhile isJsonWs
    match l with
    | [] => none
    | c :: rest =>
      if c == '"' then
        (parseStrBody rest).map (fun p => (JVal.jstr (String.mk p.1), p.2))
      else if c == lbrace then
        (let l2 := rest.dropWhile isJsonWs
         match l2 with
         | d :: r2 =>
           if d == rbrace then some (JVal.jobj [], r2)
           else (parseObjItems fuel l2).map (fun p => (JVal.jobj p.1, p.2))
         | [] => none)
      else if c == '[' then
        (let l2 := rest.dropWhile isJsonWs
         match l2 with
         | d :: r2 =>
           if d == ']' then some (JVal.jarr [], r2)
           else (parseArrItems fuel l2).map (fun p => (JVal.jarr p.1, p.2))
         | [] => none)
      else if listStartsWith "true".data l then some (JVal.jbool true, l.drop 4)
      else if listStartsWith "false".data l then some (JVal.jbool false, l.drop 5)
      else if listStartsWith "null".data l then some (JVal.jnull, l.drop 4)
      else if listStartsWith "NaN".data l then some (JVal.jnum "NaN", l.drop 3)
      else if listStartsWith "Infinity".data l then some (JVal.jnum "Infinity", l.drop 8)
      else if listStartsWith "-Infinity".data l then some (JVal.jnum "-Infinity", l.drop 9)
      else (parseNum l).map (fun p => (JVal.jnum (String.mk p.1), p.2))

/-- The elements of a non-empty JSON array, up to and past the `]`. -/
def parseArrItems : Nat → List Char → Option (List JVal × List Char)
  | 0, _ => none
  | fuel + 1, l =>
    match parseVal fuel l with
    | none => none
    | some (v, r) =>
      let r2 := r.dropWhile isJsonWs
      match r2 with
      | ',' :: r3 => (parseArrItems fuel r3).map (fun p => (v :: p.1, p.2))
      | ']' :: r3 => some ([v], r3)
      | _ => none

/-- The members of a non-empty JSON object, up to and past the close
brace. -/
def parseObjItems : Nat → List Char → Option (List (String × JVal) × List Char)
  | 0, _ => none
  | fuel + 1, l =>
    let l2 := l.dropWhile isJsonWs
    match l2 with
    | c :: r =>
      if c == '"' then
        match parseStrBody r with
        | some (key, r2) =>
          (let r3 := r2.dropWhile isJsonWs
           match r3 with
           | ':' :: r4 =>
             (match parseVal fuel r4 with
              | some (v, r5) =>
                (let r6 := r5.dropWhile isJsonWs
                 match r6 with
                 | ',' :: r7 =>
                   (parseObjItems fuel r7).map (fun p => ((String.mk key, v) :: p.1, p.2))
                 | d :: r7 =>
                   if d == rbrace then some ([(String.mk key, v)], r7) else none
                 | [] => none)
              | none => none)
           | _ => none)
        | none => none
      else none
    | [] => none

end

/-- `json.loads`: parse one value, require only whitespace after it. -/
def jsonParse (s : String) : Option JVal :=
  match parseVal (2 * s.length + 4) s.data with
  | some (v, rest) => if (rest.dropWhile isJsonWs).isEmpty then some v else none
  | none => none

/-! ## `ensure_json_array` (`main.py` lines 132-136)

`re.search(r"\[\s*{.*}\s*\]", text, re.S)` matches from the leftmost `[`
that is followed, after whitespace, by `{`, up to the **last** `]` in the
text that is preceded, after whitespace, by `}` (the `.*` is greedy and
`re.S` lets it span newlines).  The extracted text is then passed to
`json.loads`; both the no-match `ValueError` and a decode failure
surface as exceptions, modelled as `none`. -/

/-- Index of the last `]` in `l` preceded (modulo whitespace) by a close
brace: the endpoint the greedy `.*}\s*\]` tail selects. -/
def lastCloseIdx (l : List Char) : Option Nat :=
  ((List.range l.length).filter (fun n =>
    l.get? n == some ']' &&
    ((l.take n).reverse.dropWhile isPyWs).head? == some rbrace)).getLast?

/-- The regex match anchored at the head of `l`, when there is one. -/
def attemptAt (l : List Char) : Option (List Char) :=
  match l with
  | [] => none
  | c :: rest =>
    if c == '[' then
      let ws := rest.takeWhile isPyWs
      let r2 := rest.dropWhile isPyWs
      match r2 with
      | d :: r3 =>
        if d == lbrace then
          match lastCloseIdx r3 with
          | some n => some ('[' :: ws ++ lbrace :: r3.take (n + 1))
          | none => none
        else none
      | [] => none
    else none

/-- `re.search`: try each start position left to right. -/
def searchFrom : List Char → Option (List Char)
  | [] => none
  | c :: rest =>
    match attemptAt (c :: rest) with
    | some m => some m
    | none => searchFrom rest

/-- `ensure_json_array`: `none` models the raised exception (no array
pattern found, or `json.loads` failure on the extracted text). -/
def ensure_json_array (s : String) : Option JVal :=
  match searchFrom s.data with
  | none => none
  | some m => jsonParse (String.mk m)

/-- The JSON array parseable at exactly this position, as a substring
(for comparison with the spec's description of the extraction). -/
def jsonArrPrefixAt (l : List Char) : Option String :=
  if l.head? == some '[' then
    match parseVal (2 * l.length + 4) l with
    | some (JVal.jarr _, rest) => some (String.mk (l.take (l.length - rest.length)))
    | _ => none
  else none

def specFirstJsonArrAux : List Char → Option String
  | [] => none
  | c :: rest =>
    match jsonArrPrefixAt (c :: rest) with
    | some m => some m
    | none => specFirstJsonArrAux rest

/-- The spec's description of the extraction, stated in its own words:
"the first well-formed JSON array substring found anywhere in the text"
— the leftmost position at which a well-formed JSON array can be
parsed.  Kept separate from `ensure_json_array` (the source's regex
extraction) so the two can be compared. -/
def specFirstJsonArraySub (s : String) : Option String :=
  specFirstJsonArrAux s.data

/-! ## Hybrid classification orchestrator (`main.py` lines 352-370) -/

/-- The rule-based label pair of a title (the tuple
`(fallback_sentiment(t), fallback_category(t))`; Python strings sit
inside parsed-JSON values as `jstr`). -/
def fbPair (title : String) : JVal × JVal :=
  (JVal.jstr (fallback_sentiment title), JVal.jstr (fallback_category title))

/-- The `results_map` dictionary: idx (a Python string) to label pair. -/
abbrev RMap := List (String × (JVal × JVal))

/-- The `except` branch of lines 362-365 (and the no-service loop of
lines 369-370): every item of the batch is written with its rule-based
labels, in order. -/
def wholeFb (rm : RMap) (batch : List (String × String)) : RMap :=
  batch.foldl (fun m it => dInsert m it.1 (fbPair it.2)) rm

/-- Is this parsed value the Python string `s`? (Python `==` between a
`str` and a non-`str` parsed value is `False`.) -/
def isStrVal (j : JVal) (s : String) : Bool :=
  match j with
  | JVal.jstr t => t == s
  | _ => false

def hasKey (fs : List (String × JVal)) (k : String) : Bool :=
  fs.any (fun f => f.1 == k)

/-- Dict lookup on parsed-object fields (`json.loads` keeps the last of
duplicate keys). -/
def getKeyLast (fs : List (String × JVal)) (k : String) : Option JVal :=
  ((fs.filter (fun f => f.1 == k)).getLast?).map (fun f => f.2)

/-- Python `"k" in o` on a parsed-JSON value: key membership for dicts,
element equality for lists, substring test for strings, and a raised
`TypeError` (the `error` case) for the non-container values. -/
def pyInKey (k : String) (o : JVal) : Except Unit Bool :=
  match o with
  | JVal.jobj fs => Except.ok (hasKey fs k)
  | JVal.jarr xs => Except.ok (xs.any (fun x => isStrVal x k))
  | JVal.jstr s => Except.ok (strContains s k)
  | _ => Except.error ()

/-- Is this parsed value usable as a Python `dict` key?  `json.loads`
maps JSON arrays and objects to `list` / `dict`, which are unhashable;
`null`, booleans, numbers and strings are hashable. -/
def pyHashable (j : JVal) : Bool :=
  match j with
  | JVal.jarr _ => false
  | JVal.jobj _ => false
  | _ => true

/-- The dict comprehension of line 359:
`{o["idx"]: (o["sentiment"], o["category"]) for o in out if "idx" in o
and "sentiment" in o and "category" in o}` — including the `TypeError`s
it can raise (an `in` test on a non-container element, string-key
indexing of a list or string element that passed the `in` tests, or an
unhashable `o["idx"]` value used as the dict key). -/
def buildGot : List JVal → Except Unit (List (JVal × (JVal × JVal)))
  | [] => Except.ok []
  | o :: rest =>
    match pyInKey "idx" o with
    | Except.error _ => Except.error ()
    | Except.ok false => buildGot rest
    | Except.ok true =>
      match pyInKey "sentiment" o with
      | Except.error _ => Except.error ()
      | Except.ok false => buildGot rest
      | Except.ok true =>
        match pyInKey "category" o with
        | Except.error _ => Except.error ()
        | Except.ok false => buildGot rest
        | Except.ok true =>
          match o with
          | JVal.jobj fs =>
            if pyHashable ((getKeyLast fs "idx").getD JVal.jnull) then
              (match buildGot rest with
               | Except.error _ => Except.error ()
               | Except.ok got =>
                 Except.ok (((getKeyLast fs "idx").getD JVal.jnull,
                   ((getKeyLast fs "sentiment").getD JVal.jnull,
                    (getKeyLast fs "category").getD JVal.jnull)) :: got))
            else Except.error ()
          | _ => Except.error ()

/-- `got.get(idx)` where `idx` is the item's Python-string identifier:
only a string key equal to it matches; duplicates keep the last value. -/
def gotLookup (got : List (JVal × (JVal × JVal))) (idx : String) : Option (JVal × JVal) :=
  ((got.filter (fun e => isStrVal e.1 idx)).getLast?).map (fun e => e.2)

/-- Lines 355-366: one batch.  `resp` is the service's response text,
`none` when the call itself raised.  Any exception inside the `try`
(transport, `ensure_json_array`, or the comprehension's `TypeError`)
falls back to rule-based labels for the whole batch. -/
def processBatch (rm : RMap) (batch : List (String × String)) (resp : Option String) : RMap :=
  match resp with
  | none => wholeFb rm batch
  | some text =>
    match ensure_json_array text with
    | none => wholeFb rm batch
    | some j =>
      match j with
      | JVal.jarr out =>
        (match buildGot out with
         | Except.error _ => wholeFb rm batch
         | Except.ok got =>
           batch.foldl (fun m it =>
             dInsert m it.1 ((gotLookup got it.1).getD (fbPair it.2))) rm)
      | _ => wholeFb rm batch

/-- The label pair a batch computes **for one of its own items** under
each branch of `processBatch`: the service's labels when the parsed map
holds the item's idx, the item's own rule-based labels in every failure
branch and when its idx is missing.  `processBatch` performs exactly the
write `(it.idx, batchValue resp it)` for each item, in order. -/
def batchValue (resp : Option String) (it : String × String) : JVal × JVal :=
  match resp with
  | none => fbPair it.2
  | some text =>
    match ensure_json_array text with
    | none => fbPair it.2
    | some j =>
      match j with
      | JVal.jarr out =>
        (match buildGot out with
         | Except.error _ => fbPair it.2
         | Except.ok got => (gotLookup got it.1).getD (fbPair it.2))
      | _ => fbPair it.2

def chunksAux : Nat → List α → List (List α)
  | 0, _ => []
  | _, [] => []
  | fuel + 1, l => l.take 100 :: chunksAux fuel (l.drop 100)

/-- `items[s:s+BATCH_SIZE] for s in range(0, len(items), BATCH_SIZE)`
with `BATCH_SIZE = 100`. -/
def chunks (l : List α) : List (List α) := chunksAux l.length l

/-- The batch loop of lines 355-366, given each batch's response. -/
def runBatches (rm : RMap) : List (List (String × String) × Option String) → RMap
  | [] => rm
  | (b, resp) :: rest => runBatches (processBatch rm b resp) rest

/-- The Gemini path: batches zipped with their responses, starting from
the empty `results_map` of line 352. -/
def geminiClassify (items : List (String × String)) (resps : List (Option String)) : RMap :=
  runBatches [] ((chunks items).zip resps)

/-- Lines 368-370: the no-service path (`use_gemini` false). -/
def rulePath (items : List (String × String)) : RMap :=
  items.foldl (fun m it => dInsert m it.1 (fbPair it.2)) []

/-- Lines 373-382: the label pair placed on each destination row, in row
order; `i` is the sheet row of the head of `titles`.  Blank titles get
the empty-string sentinel pair; other rows look their idx up in
`results_map` with the rule-based pair as the `.get` default. -/
def labelCells (numbers : List String) (rm : RMap) : Nat → List String → List (JVal × JVal)
  | _, [] => []
  | i, title :: rest =>
    (if pyStrip title == "" then (JVal.jstr "", JVal.jstr "")
     else (rmLookup rm (idxFor numbers i)).getD (fbPair title)) ::
    labelCells numbers rm (i + 1) rest

/-- `m_values`: the singleton cell rows written to column M. -/
def mValuesOf (titles numbers : List String) (rm : RMap) : List (List JVal) :=
  (labelCells numbers rm 2 titles).map (fun p => [p.1])

/-- `n_values`: the singleton cell rows written to column N. -/
def nValuesOf (titles numbers : List String) (rm : RMap) : List (List JVal) :=
  (labelCells numbers rm 2 titles).map (fun p => [p.2])

/-! ## Helper lemmas: Python dictionaries as ordered entry lists -/

theorem dInsert_lookup (m : List (String × α)) (k : String) (v : α) (k' : String) :
    rmLookup (dInsert m k v) k' = if k' = k then some v else rmLookup m k' := by
  unfold dInsert rmLookup
  by_cases hk : m.any (fun p => p.1 == k) = true
  · rw [if_pos hk, List.find?_map]
    by_cases hkk : k' = k
    · subst hkk
      have hpred : ((fun p : String × α => p.1 == k') ∘ fun p => if p.1 == k' then (k', v) else p) =
          fun p : String × α => p.1 == k' := by
        funext p
        by_cases hp : p.1 = k' <;> simp [hp]
      rw [hpred, if_pos rfl]
      obtain ⟨p, hp, hpk⟩ := List.any_eq_true.mp hk
      have hsome : (m.find? (fun p => p.1 == k')).isSome :=
        List.find?_isSome.mpr ⟨p, hp, hpk⟩
      obtain ⟨w, hw⟩ := Option.isSome_iff_exists.mp hsome
      have hw1 : w.1 = k' := by simpa using List.find?_some hw
      simp [hw, hw1]
    · have hpred : ((fun p : String × α => p.1 == k') ∘ fun p => if p.1 == k then (k, v) else p) =
          fun p : String × α => p.1 == k' := by
        funext p
        by_cases hp : p.1 = k <;> simp [hp]
      rw [hpred, if_neg hkk]
      cases hfind : m.find? (fun p => p.1 == k') with
      | none => simp
      | some w =>
        have hw1 : w.1 = k' := by simpa using List.find?_some hfind
        have hcond : ¬(w.1 = k) := by rw [hw1]; exact hkk
        simp [hfind, hcond]
  · rw [if_neg hk, List.find?_append]
    have hkf : m.any (fun p => p.1 == k) = false := by
      cases h : m.any (fun p => p.1 == k)
      · rfl
      · exact absurd h hk
    by_cases hkk : k' = k
    · subst hkk
      have hnone : m.find? (fun p => p.1 == k') = none :=
        List.find?_eq_none.mpr (fun p hp => List.any_eq_false.mp hkf p hp)
      rw [if_pos rfl]
      simp [hnone, Option.or, List.find?]
    · rw [if_neg hkk]
      have hkv : (((k, v) : String × α).1 == k') = false := by
        simp
        exact Ne.symm hkk
      cases hfind : m.find? (fun p => p.1 == k') <;>
        simp [hfind, Option.or, List.find?, hkv]

/-- The value a key holds after a sequence of dictionary writes: the last
write with that key, else whatever the initial dictionary held. -/
theorem foldl_dInsert_lookup (ws : List (String × α)) (rm : List (String × α)) (k : String) :
    rmLookup (ws.foldl (fun m p => dInsert m p.1 p.2) rm) k =
      match ws.reverse.find? (fun p => p.1 == k) with
      | some p => some p.2
      | none => rmLookup rm k := by
  induction ws generalizing rm with
  | nil => simp
  | cons w ws ih =>
    simp only [List.foldl_cons, ih, List.reverse_cons, List.find?_append]
    cases hfind : ws.reverse.find? (fun p => p.1 == k) with
    | some p => simp [Option.or]
    | none =>
      simp only [Option.or, dInsert_lookup]
      by_cases hkk : k = w.1
      · simp [hkk]
      · have : (w.1 == k) = false := by simp [Ne.symm hkk]
        simp [this, hkk]

/-- With pairwise-distinct keys, the last write for a key present in the
list is that key's unique entry. -/
theorem find?_reverse_of_nodup (ws : List (String × α))
    (h : (ws.map Prod.fst).Nodup) (w : String × α) (hw : w ∈ ws) :
    ws.reverse.find? (fun p => p.1 == w.1) = some w := by
  induction ws with
  | nil => cases hw
  | cons x ws ih =>
    simp only [List.reverse_cons, List.find?_append]
    have h' : (x.1 :: ws.map Prod.fst).Nodup := by simpa using h
    rcases List.mem_cons.mp hw with hx | hmem
    · subst hx
      have hnone : ws.reverse.find? (fun p => p.1 == w.1) = none := by
        rw [List.find?_eq_none]
        intro p hp
        have hkey : w.1 ∉ ws.map Prod.fst := (List.nodup_cons.mp h').1
        have hmemk : p.1 ∈ ws.map Prod.fst :=
          List.mem_map.mpr ⟨p, List.mem_reverse.mp hp, rfl⟩
        intro hpe
        have hp1 : p.1 = w.1 := by simpa using hpe
        exact hkey (hp1 ▸ hmemk)
      simp [hnone, Option.or, List.find?]
    · have := ih (List.nodup_cons.mp h').2 hmem
      simp [this, Option.or]

/-- A per-item loop of dictionary writes is the write list it performs. -/
theorem foldl_write_eq (batch : List γ) (key : γ → String) (f : γ → α)
    (rm : List (String × α)) :
    batch.foldl (fun m it => dInsert m (key it) (f it)) rm =
      (batch.map (fun it => (key it, f it))).foldl (fun m p => dInsert m p.1 p.2) rm := by
  induction batch generalizing rm with
  | nil => rfl
  | cons b batch ih => simp [List.foldl_cons, ih]

theorem wholeFb_writes (rm : RMap) (batch : List (String × String)) :
    wholeFb rm batch =
      (batch.map (fun it => (it.1, fbPair it.2))).foldl (fun m p => dInsert m p.1 p.2) rm := by
  unfold wholeFb
  rw [foldl_write_eq batch Prod.fst (fun it => fbPair it.2) rm]

/-- Each branch of `processBatch` is the in-order sequence of dictionary
writes `(idx, batchValue resp item)`, one per batch item. -/
theorem processBatch_writes (rm : RMap) (batch : List (String × String))
    (resp : Option String) :
    processBatch rm batch resp =
      (batch.map (fun it => (it.1, batchValue resp it))).foldl
        (fun m p => dInsert m p.1 p.2) rm := by
  cases resp with
  | none =>
    have hbv : ∀ it : String × String, batchValue none it = fbPair it.2 := fun _ => rfl
    simp only [processBatch, hbv]
    rw [wholeFb_writes]
  | some text =>
    cases hj : ensure_json_array text with
    | none =>
      have hbv : ∀ it : String × String, batchValue (some text) it = fbPair it.2 := by
        intro it
        simp [batchValue, hj]
      simp only [processBatch, hj, hbv]
      rw [wholeFb_writes]
    | some j =>
      cases j with
      | jarr out =>
        cases hg : buildGot out with
        | error e =>
          have hbv : ∀ it : String × String, batchValue (some text) it = fbPair it.2 := by
            intro it
            simp [batchValue, hj, hg]
          simp only [processBatch, hj, hg, hbv]
          rw [wholeFb_writes]
        | ok got =>
          have hbv : ∀ it : String × String,
              batchValue (some text) it = (gotLookup got it.1).getD (fbPair it.2) := by
            intro it
            simp [batchValue, hj, hg]
          simp only [processBatch, hj, hg, hbv]
          rw [foldl_write_eq batch Prod.fst
            (fun it => (gotLookup got it.1).getD (fbPair it.2)) rm]
      | jnull =>
        have hbv : ∀ it : String × String, batchValue (some text) it = fbPair it.2 := by
          intro it
          simp [batchValue, hj]
        simp only [processBatch, hj, hbv]
        rw [wholeFb_writes]
      | jbool b =>
        have hbv : ∀ it : String × String, batchValue (some text) it = fbPair it.2 := by
          intro it
          simp [batchValue, hj]
        simp only [processBatch, hj, hbv]
        rw [wholeFb_writes]
      | jnum s =>
        have hbv : ∀ it : String × String, batchValue (some text) it = fbPair it.2 := by
          intro it
          simp [batchValue, hj]
        simp only [processBatch, hj, hbv]
        rw [wholeFb_writes]
      | jstr s =>
        have hbv : ∀ it : String × String, batchValue (some text) it = fbPair it.2 := by
          intro it
          simp [batchValue, hj]
        simp only [processBatch, hj, hbv]
        rw [wholeFb_writes]
      | jobj fs =>
        have hbv : ∀ it : String × String, batchValue (some text) it = fbPair it.2 := by
          intro it
          simp [batchValue, hj]
        simp only [processBatch, hj, hbv]
        rw [wholeFb_writes]

theorem chunksAux_flatten (fuel : Nat) (l : List α) (h : l.length ≤ fuel) :
    (chunksAux fuel l).flatten = l := by
  induction fuel generalizing l with
  | zero =>
    cases l with
    | nil => rfl
    | cons x xs => simp at h
  | succ fuel ih =>
    cases l with
    | nil => rfl
    | cons x xs =>
      show ((x :: xs).take 100 :: chunksAux fuel ((x :: xs).drop 100)).flatten = x :: xs
      have hlen : ((x :: xs).drop 100).length ≤ fuel := by
        rw [List.length_drop]
        simp only [List.length_cons] at h ⊢
        omega
      rw [List.flatten_cons, ih _ hlen, List.take_append_drop]

/-- The batch loop partitions the item list without loss. -/
theorem chunks_flatten (l : List α) : (chunks l).flatten = l :=
  chunksAux_flatten l.length l le_rfl

/-- The whole batch loop is the concatenation of its batches' write
sequences. -/
theorem runBatches_writes (pairs : List (List (String × String) × Option String))
    (rm : RMap) :
    runBatches rm pairs =
      ((pairs.map (fun p => p.1.map (fun it => (it.1, batchValue p.2 it)))).flatten).foldl
        (fun m q => dInsert m q.1 q.2) rm := by
  induction pairs generalizing rm with
  | nil => rfl
  | cons p rest ih =>
    cases p with
    | mk b r =>
      show runBatches (processBatch rm b r) rest = _
      rw [ih, processBatch_writes, List.map_cons, List.flatten_cons, List.foldl_append]

/-- With pairwise-distinct idx values, the final `results_map` hands each
item the value its own batch computed for it. -/
theorem geminiClassify_lookup (items : List (String × String))
    (resps : List (Option String))
    (hnodup : (items.map Prod.fst).Nodup)
    (hlen : (chunks items).length = resps.length)
    (it : String × String) (hit : it ∈ items) :
    ∃ b resp, (b, resp) ∈ (chunks items).zip resps ∧ it ∈ b ∧
      rmLookup (geminiClassify items resps) it.1 = some (batchValue resp it) := by
  have hjoin : (chunks items).flatten = items := chunks_flatten items
  have hitj : it ∈ (chunks items).flatten := by rw [hjoin]; exact hit
  obtain ⟨b, hb, hitb⟩ := List.mem_flatten.mp hitj
  obtain ⟨c, hc, hbc⟩ := List.mem_iff_getElem.mp hb
  have hc2 : c < resps.length := by omega
  have hczip : c < ((chunks items).zip resps).length := by
    rw [List.length_zip]
    omega
  have hpair : (b, resps[c]) ∈ (chunks items).zip resps := by
    have : ((chunks items).zip resps)[c] = ((chunks items)[c], resps[c]) :=
      List.getElem_zip
    rw [hbc] at this
    exact this ▸ List.getElem_mem hczip
  refine ⟨b, resps[c], hpair, hitb, ?_⟩
  unfold geminiClassify
  rw [runBatches_writes, foldl_dInsert_lookup]
  have hW : ((((chunks items).zip resps).map
      (fun p => p.1.map (fun it => (it.1, batchValue p.2 it)))).flatten.map
        Prod.fst) = items.map Prod.fst := by
    rw [List.map_flatten, List.map_map]
    have hpt : ∀ p : List (String × String) × Option String,
        (List.map Prod.fst ∘ fun p : List (String × String) × Option String =>
          p.1.map (fun it => (it.1, batchValue p.2 it))) p = p.1.map Prod.fst := by
      intro p
      show (p.1.map (fun it => (it.1, batchValue p.2 it))).map Prod.fst = p.1.map Prod.fst
      rw [List.map_map]
      rfl
    rw [List.map_congr_left (fun p _ => hpt p)]
    rw [show (((chunks items).zip resps).map fun p => p.1.map Prod.fst) =
        (((chunks items).zip resps).map Prod.fst).map (List.map Prod.fst) from by
      rw [List.map_map]
      rfl]
    rw [← List.map_flatten, List.map_fst_zip _ _ (le_of_eq hlen), chunks_flatten]
  have hkeys : (((((chunks items).zip resps).map
      (fun p => p.1.map (fun it => (it.1, batchValue p.2 it)))).flatten).map
        Prod.fst).Nodup := by
    rw [hW]
    exact hnodup
  have hw : (it.1, batchValue resps[c] it) ∈
      (((chunks items).zip resps).map
        (fun p => p.1.map (fun it => (it.1, batchValue p.2 it)))).flatten :=
    List.mem_flatten.mpr ⟨b.map (fun it => (it.1, batchValue resps[c] it)),
      List.mem_map.mpr ⟨(b, resps[c]), hpair, rfl⟩,
      List.mem_map.mpr ⟨it, hitb, rfl⟩⟩
  have hfind := find?_reverse_of_nodup _ hkeys _ hw
  rw [hfind]

theorem labelCells_length (numbers : List String) (rm : RMap) (i : Nat)
    (titles : List String) :
    (labelCells numbers rm i titles).length = titles.length := by
  induction titles generalizing i with
  | nil => rfl
  | cons t rest ih => simp [labelCells, ih]

theorem labelCells_getD (numbers : List String) (rm : RMap) (i : Nat)
    (titles : List String) (j : Nat) (hj : j < titles.length) :
    (labelCells numbers rm i titles).getD j (JVal.jstr "", JVal.jstr "") =
      (if pyStrip (titles.getD j "") == "" then (JVal.jstr "", JVal.jstr "")
       else (rmLookup rm (idxFor numbers (i + j))).getD (fbPair (titles.getD j ""))) := by
  induction titles generalizing i j with
  | nil => cases hj
  | cons t rest ih =>
    cases j with
    | zero => simp [labelCells]
    | succ j' =>
      have hj' : j' < rest.length := by simpa using hj
      have := ih (i + 1) j' hj'
      simp only [labelCells, List.getD_cons_succ]
      rw [this]
      have : i + 1 + j' = i + (j' + 1) := by omega
      rw [this]

theorem itemsAux_mem (numbers : List String) (titles : List String) (i j : Nat)
    (hj : j < titles.length) (hne : ¬pyStrip (titles.getD j "") == "") :
    (idxFor numbers (i + j), titles.getD j "") ∈ itemsAux numbers i titles := by
  induction titles generalizing i j with
  | nil => cases hj
  | cons t rest ih =>
    cases j with
    | zero =>
      simp only [List.getD_cons_zero] at hne ⊢
      simp [itemsAux, hne]
    | succ j' =>
      have hj' : j' < rest.length := by simpa using hj
      simp only [List.getD_cons_succ] at hne ⊢
      have hmem := ih (i + 1) j' hj' hne
      have harith : i + 1 + j' = i + (j' + 1) := by omega
      rw [harith] at hmem
      simp only [itemsAux]
      by_cases hb : pyStrip t == ""
      · rw [if_pos hb]
        exact hmem
      · rw [if_neg hb]
        exact List.mem_cons_of_mem _ hmem

/-! ## Claim theorems -/

/-- C7: with `start = (now − 1 day) at 15:00:00` and `end = now at
14:59:59` (both UTC+9), a record passes iff `start ≤ postedAt ≤ end`,
inclusive at both ends; a record at day−1 15:00:00 or day 14:59:59 is
included, one at day−1 14:59:59 or day 15:00:00 is excluded. -/
theorem c7_window_filter (now : JstNow) :
    inWindow (windowStart now) (windowEnd now) ((now.days - 1) * 86400 + 15 * 3600) = true ∧
    inWindow (windowStart now) (windowEnd now)
      ((now.days - 1) * 86400 + 14 * 3600 + 59 * 60 + 59) = false ∧
    inWindow (windowStart now) (windowEnd now)
      (now.days * 86400 + 14 * 3600 + 59 * 60 + 59) = true ∧
    inWindow (windowStart now) (windowEnd now) (now.days * 86400 + 15 * 3600) = false ∧
    ∀ t : Int, inWindow (windowStart now) (windowEnd now) t = true ↔
      windowStart now ≤ t ∧ t ≤ windowEnd now := by
  unfold inWindow windowStart windowEnd
  refine ⟨?_, ?_, ?_, ?_, fun t => ?_⟩ <;> simp <;> omega

/-- C9: the rule-based sentiment is `ポジティブ` iff the title contains a
positive keyword and no negative keyword, `ネガティブ` iff a negative
keyword and no positive keyword, and `ニュートラル` in all other cases. -/
theorem c9_sentiment_rule (t : String) :
    (fallback_sentiment t = "ポジティブ" ↔
      POS_KW.any (fun k => strContains t k) = true ∧
      NEG_KW.any (fun k => strContains t k) = false) ∧
    (fallback_sentiment t = "ネガティブ" ↔
      NEG_KW.any (fun k => strContains t k) = true ∧
      POS_KW.any (fun k => strContains t k) = false) ∧
    (fallback_sentiment t = "ニュートラル" ↔
      ¬(POS_KW.any (fun k => strContains t k) = true ∧
        NEG_KW.any (fun k => strContains t k) = false) ∧
      ¬(NEG_KW.any (fun k => strContains t k) = true ∧
        POS_KW.any (fun k => strContains t k) = false)) := by
  unfold fallback_sentiment
  cases hp : POS_KW.any (fun k => strContains t k) <;>
    cases hn : NEG_KW.any (fun k => strContains t k) <;>
      refine ⟨?_, ?_, ?_⟩ <;> simp [hp, hn]

/-- C1: if every in-window URL of the source is already in the URL set
loaded from the destination at the start of the run, the collection loop
accepts nothing (a second run over an unchanged source and window appends
zero records). -/
theorem c1_idempotent_ingestion (startT endT : Int) (existingData : List (List String))
    (rows : List SourceRow)
    (h : ∀ r ∈ rows, ∀ t : Int, r.postDate = some t →
      inWindow startT endT t = true → r.url ∈ existingUrls existingData) :
    collectNews startT endT (existingUrls existingData) rows = [] := by
  unfold collectNews
  rw [List.filter_eq_nil_iff]
  intro r hr
  cases hpd : r.postDate with
  | none => simp
  | some tv =>
    simp only [hpd]
    by_cases hw : inWindow startT endT tv = true
    · have hmem : r.url ∈ existingUrls existingData := h r hr tv hpd hw
      simp [hw]
      exact hmem
    · simp [Bool.eq_false_iff.mpr hw]

/-- Witness for C1 at a concrete source and destination state. -/
theorem c1_idempotent_ingestion_witness :
    collectNews 0 100000
      (existingUrls [["ソース", "t", "u"], ["s", "tt", "u1"]])
      [⟨"A", "u1", some 54000, "s"⟩] = [] := by
  refine c1_idempotent_ingestion 0 100000 _ _ ?_
  intro r hr t hpd hw
  simp only [List.mem_singleton] at hr
  subst hr
  simp only [SourceRow.mk.injEq] at hpd ⊢
  decide

/-- C2 counterexample: two source rows with the same URL, both in the
window and absent from the destination set — the collection loop keeps
BOTH (the claim says only the first survives).  The accepted URL is never
added to the in-memory set. -/
theorem c2_within_batch_cex :
    collectNews 0 100000 []
      [⟨"A", "u", some 54000, "s"⟩, ⟨"B", "u", some 54001, "s"⟩] =
      [⟨"A", "u", some 54000, "s"⟩, ⟨"B", "u", some 54001, "s"⟩] := by
  rfl

/-- C2 amended: acceptance does **not** add the URL to the in-memory set;
a later row with the same in-window, not-yet-stored URL is also accepted,
and both appear in the output in their original source order. -/
theorem c2_within_batch_amended (startT endT : Int) (urls : List String)
    (pre mid post : List SourceRow) (r1 r2 : SourceRow) (t1 t2 : Int)
    (hurl : r1.url = r2.url)
    (hd1 : r1.postDate = some t1) (hw1 : inWindow startT endT t1 = true)
    (hu1 : r1.url ∉ urls)
    (hd2 : r2.postDate = some t2) (hw2 : inWindow startT endT t2 = true) :
    [r1, r2].Sublist (collectNews startT endT urls (pre ++ r1 :: (mid ++ r2 :: post))) := by
  unfold collectNews
  have hc1 : urls.contains r1.url = false := by
    cases hc : urls.contains r1.url
    · rfl
    · exact absurd (List.elem_iff.mp hc) hu1
  have hc2 : urls.contains r2.url = false := hurl ▸ hc1
  rw [List.filter_append, List.filter_cons_of_pos (by simp [hd1, hw1]; exact hu1),
    List.filter_append, List.filter_cons_of_pos (by simp [hd2, hw2]; exact hurl ▸ hu1)]
  refine List.sublist_append_of_sublist_right ?_
  refine List.Sublist.cons₂ r1 ?_
  refine List.sublist_append_of_sublist_right ?_
  exact List.Sublist.cons₂ r2 (List.nil_sublist _)

/-- Witness for the amended C2 at a concrete duplicate pair. -/
theorem c2_within_batch_amended_witness :
    [(⟨"A", "u", some 54000, "s"⟩ : SourceRow), ⟨"B", "u", some 54001, "s"⟩].Sublist
      (collectNews 0 100000 []
        [⟨"A", "u", some 54000, "s"⟩, ⟨"B", "u", some 54001, "s"⟩]) := by
  have := c2_within_batch_amended 0 100000 [] [] [] []
    ⟨"A", "u", some 54000, "s"⟩ ⟨"B", "u", some 54001, "s"⟩ 54000 54001
    rfl rfl (by decide) (by decide) rfl (by decide)
  simpa using this

/-- C8: the category rules form a strictly ordered cascade — a title
containing both a motorsport keyword and a generic technology keyword is
classified motorsport (the earlier rule), and the target-brand company
label is only produced when the vehicle-model rule did not match. -/
theorem c8_category_cascade :
    (∀ t : String, (∃ k ∈ MOTOR_KW, strContains t k = true) →
      (∃ g ∈ TECH_KW, strContains t g = true) →
      fallback_category t = "モータースポーツ") ∧
    (∀ t c : String, fallback_category t = "会社（" ++ c ++ "）" →
      vehicleRegex t = false) := by
  constructor
  · intro t hm _
    have hany : MOTOR_KW.any (fun k => strContains t k) = true :=
      List.any_eq_true.mpr hm
    unfold fallback_category
    simp [hany]
  · intro t c h
    cases hv : vehicleRegex t with
    | false => rfl
    | true =>
      exfalso
      unfold fallback_category at h
      split_ifs at h <;>
        first
          | (apply_fun String.data at h; simp [String.data_append] at h; done)
          | simp_all

/-- Witness for C8 at concrete titles: "F1の技術" holds a motorsport and
a technology keyword; "日産" is classified as the target-brand company. -/
theorem c8_category_cascade_witness :
    fallback_category "F1の技術" = "モータースポーツ" ∧ vehicleRegex "日産" = false :=
  ⟨c8_category_cascade.1 "F1の技術" ⟨"F1", by decide, by decide⟩ ⟨"技術", by decide, by decide⟩,
   c8_category_cascade.2 "日産" "ニッサン" (by decide)⟩

/-- C3: the write-back pass produces exactly one sentiment cell and one
category cell for every destination row — blank titles get the
empty-string sentinel pair, non-blank titles a label pair — whatever
results dictionary the classification produced (in particular, the empty
one of a run whose service failed entirely). -/
theorem c3_label_completeness (titles numbers : List String) (rm : RMap) :
    (mValuesOf titles numbers rm).length = titles.length ∧
    (nValuesOf titles numbers rm).length = titles.length ∧
    ∀ j, j < titles.length →
      (pyStrip (titles.getD j "") = "" →
        (mValuesOf titles numbers rm).getD j [] = [JVal.jstr ""] ∧
        (nValuesOf titles numbers rm).getD j [] = [JVal.jstr ""]) ∧
      (pyStrip (titles.getD j "") ≠ "" →
        ∃ s c : JVal, (mValuesOf titles numbers rm).getD j [] = [s] ∧
          (nValuesOf titles numbers rm).getD j [] = [c]) := by
  refine ⟨by simp [mValuesOf, labelCells_length],
          by simp [nValuesOf, labelCells_length], fun j hj => ?_⟩
  have hlen : j < (labelCells numbers rm 2 titles).length := by
    rw [labelCells_length]; exact hj
  have hget := labelCells_getD numbers rm 2 titles j hj
  have hm : (mValuesOf titles numbers rm).getD j [] =
      [((labelCells numbers rm 2 titles).getD j (JVal.jstr "", JVal.jstr "")).1] := by
    unfold mValuesOf
    rw [List.getD_eq_getElem?_getD, List.getElem?_map,
      (List.getElem?_eq_getElem hlen), List.getD_eq_getElem?_getD,
      (List.getElem?_eq_getElem hlen)]
    rfl
  have hn : (nValuesOf titles numbers rm).getD j [] =
      [((labelCells numbers rm 2 titles).getD j (JVal.jstr "", JVal.jstr "")).2] := by
    unfold nValuesOf
    rw [List.getD_eq_getElem?_getD, List.getElem?_map,
      (List.getElem?_eq_getElem hlen), List.getD_eq_getElem?_getD,
      (List.getElem?_eq_getElem hlen)]
    rfl
  constructor
  · intro hblank
    have hb : (pyStrip (titles.getD j "") == "") = true := by
      rw [hblank]
      rfl
    rw [hm, hn, hget, if_pos hb]
    exact ⟨rfl, rfl⟩
  · intro hne
    have hb : ¬((pyStrip (titles.getD j "") == "") = true) := by
      simp only [beq_iff_eq]
      exact hne
    rw [hm, hn, hget, if_neg hb]
    exact ⟨_, _, rfl, rfl⟩

/-- Witness for C3 on a concrete sheet state (one blank and one real
title, empty results dictionary). -/
theorem c3_label_completeness_witness :
    (mValuesOf ["発売", " "] [] []).length = 2 ∧
    (mValuesOf ["発売", " "] [] []).getD 1 [] = [JVal.jstr ""] ∧
    (∃ s c : JVal, (mValuesOf ["発売", " "] [] []).getD 0 [] = [s] ∧
      (nValuesOf ["発売", " "] [] []).getD 0 [] = [c]) :=
  ⟨(c3_label_completeness ["発売", " "] [] []).1,
   (((c3_label_completeness ["発売", " "] [] []).2.2 1 (by decide)).1 (by decide)).1,
   ((c3_label_completeness ["発売", " "] [] []).2.2 0 (by decide)).2 (by decide)⟩

/-- Reading the sequence start from a destination whose last row has a
parseable integer in its column-L cell. -/
theorem startLNumber_last (rows : List (List String)) (lastRow : List String)
    (h2 : rows.length > 1) (hlast : rows.getLast? = some lastRow)
    (h11 : 11 < lastRow.length) (n : Int)
    (hparse : pyInt (lastRow.get ⟨11, h11⟩) = some n) :
    startLNumber rows true = n := by
  unfold startLNumber
  rw [if_pos (by simp [h2]), hlast]
  have hred : (match some lastRow with
      | some lr =>
        if h : 11 < lr.length then
          (match pyInt (lr.get ⟨11, h⟩) with
           | some m => m
           | none => 0)
        else 0
      | none => (0 : Int)) =
      (if h : 11 < lastRow.length then
        (match pyInt (lastRow.get ⟨11, h⟩) with
         | some m => m
         | none => 0)
      else 0) := rfl
  rw [hred, dif_pos h11, hparse]

/-- C6: a batch of `k` accepted records is appended with column-L numbers
`N+1 … N+k` in source order, where `N` is the number read from the last
existing row (`0` with no prior data); these are strictly increasing and
all exceed `N`, and a later run that reads the appended data back (the
decimal cell parsing as the integer it renders) continues from `N + k`,
so no number is ever reused across runs. -/
theorem c6_sequencing (existingData : List (List String)) (he : Bool)
    (collected : List SourceRow) (dateFmt : Int → String) :
    ((dataToAppend existingData he collected dateFmt).map (fun row => row.getD 11 "")) =
      (lVals (startLNumber existingData he) collected.length).map toString ∧
    (lVals (startLNumber existingData he) collected.length).Pairwise (· < ·) ∧
    (∀ x ∈ lVals (startLNumber existingData he) collected.length,
      startLNumber existingData he < x) ∧
    (1 ≤ collected.length → existingData ≠ [] →
      pyInt (toString (startLNumber existingData he + collected.length)) =
        some (startLNumber existingData he + collected.length) →
      startLNumber (existingData ++ dataToAppend existingData he collected dateFmt) true =
        startLNumber existingData he + collected.length) := by
  refine ⟨?_, ?_, ?_, ?_⟩
  · unfold dataToAppend lVals
    rw [List.map_map, List.map_map]
    rfl
  · unfold lVals
    exact List.Pairwise.map _ (fun a b hab => by omega) (List.pairwise_lt_range _)
  · intro x hx
    unfold lVals at hx
    obtain ⟨i, _, hi⟩ := List.mem_map.mp hx
    omega
  · intro hk hne hparse
    have hlastval : (dataToAppend existingData he collected dateFmt).getLast? =
        some (["Yahoo", (collected.getD (collected.length - 1) ⟨"", "", none, ""⟩).title,
          (collected.getD (collected.length - 1) ⟨"", "", none, ""⟩).url,
          (match (collected.getD (collected.length - 1) ⟨"", "", none, ""⟩).postDate with
           | some t => dateFmt t | none => ""),
          (collected.getD (collected.length - 1) ⟨"", "", none, ""⟩).source,
          "", "", "", "",
          jFormula (existingData.length + 1 + (collected.length - 1) +
            (if he then 0 else 1))
            (existingData.length + collected.length + (if he then 0 else 1)),
          kExtract (collected.getD (collected.length - 1) ⟨"", "", none, ""⟩).title,
          toString (startLNumber existingData he + ((collected.length - 1 : Nat) : Int) + 1)]) := by
      unfold dataToAppend
      rw [List.getLast?_eq_getElem?]
      simp only [List.length_map, List.length_range]
      rw [List.getElem?_map]
      rw [List.getElem?_range (by omega)]
      rfl
    have harith : startLNumber existingData he + ((collected.length - 1 : Nat) : Int) + 1 =
        startLNumber existingData he + collected.length := by
      omega
    rw [harith] at hlastval
    have hlast : (existingData ++ dataToAppend existingData he collected dateFmt).getLast? =
        (dataToAppend existingData he collected dateFmt).getLast? := by
      rw [List.getLast?_append, hlastval]
      simp [Option.or]
    have hlen2 : (existingData ++ dataToAppend existingData he collected dateFmt).length > 1 := by
      have hdl : (dataToAppend existingData he collected dateFmt).length = collected.length := by
        unfold dataToAppend
        simp
      have hel : existingData.length ≥ 1 := by
        cases existingData
        · exact absurd rfl hne
        · simp
      simp only [List.length_append, hdl]
      omega
    exact startLNumber_last _ _ hlen2 (hlast.trans hlastval) (by simp) _ hparse

/-- Witness for C6 at a concrete destination state and batch. -/
theorem c6_sequencing_witness :
    ((dataToAppend [["ソース"], ["a", "b", "c", "d", "e", "f", "g", "h", "i", "j", "k", "4"]]
        true [⟨"A", "u1", some 54000, "s"⟩, ⟨"B", "u2", some 54001, "s"⟩]
        (fun _ => "2024/01/01")).map (fun row => row.getD 11 "")) =
      (lVals (startLNumber [["ソース"], ["a", "b", "c", "d", "e", "f", "g", "h", "i", "j", "k", "4"]] true)
        ([(⟨"A", "u1", some 54000, "s"⟩ : SourceRow), ⟨"B", "u2", some 54001, "s"⟩].length)).map toString ∧
    startLNumber ([["ソース"], ["a", "b", "c", "d", "e", "f", "g", "h", "i", "j", "k", "4"]] ++
      dataToAppend [["ソース"], ["a", "b", "c", "d", "e", "f", "g", "h", "i", "j", "k", "4"]]
        true [⟨"A", "u1", some 54000, "s"⟩, ⟨"B", "u2", some 54001, "s"⟩]
        (fun _ => "2024/01/01")) true =
      startLNumber [["ソース"], ["a", "b", "c", "d", "e", "f", "g", "h", "i", "j", "k", "4"]] true +
        ([(⟨"A", "u1", some 54000, "s"⟩ : SourceRow), ⟨"B", "u2", some 54001, "s"⟩].length) :=
  ⟨(c6_sequencing [["ソース"], ["a", "b", "c", "d", "e", "f", "g", "h", "i", "j", "k", "4"]]
      true [⟨"A", "u1", some 54000, "s"⟩, ⟨"B", "u2", some 54001, "s"⟩] (fun _ => "2024/01/01")).1,
   (c6_sequencing [["ソース"], ["a", "b", "c", "d", "e", "f", "g", "h", "i", "j", "k", "4"]]
      true [⟨"A", "u1", some 54000, "s"⟩, ⟨"B", "u2", some 54001, "s"⟩]
      (fun _ => "2024/01/01")).2.2.2 (by decide) (by decide) (by decide)⟩

/-- C4 counterexample: a batch whose response parses into a JSON array
(keyed `"7"`), containing two items that share the idx `"1"` (possible
when duplicate numbers occur in column L).  The claim says each item
whose idx is missing from the map receives the rule-based labels for its
own title; but the first item's write is overwritten by the second's, so
idx `"1"` ends at `事故`'s labels while `発売`'s own sentiment is
`ポジティブ` ≠ `ネガティブ`. -/
theorem c4_per_item_fallback_cex :
    rmLookup (processBatch [] [("1", "発売"), ("1", "事故")]
      (some "[\x7b\"idx\": \"7\", \"sentiment\": \"P\", \"category\": \"C\"\x7d]")) "1" =
      some (JVal.jstr "ネガティブ", JVal.jstr "その他") ∧
    fbPair "発売" = (JVal.jstr "ポジティブ", JVal.jstr "その他") ∧
    ("ポジティブ" : String) ≠ "ネガティブ" := by
  refine ⟨rfl, rfl, by decide⟩

/-- C4 amended: provided the batch's items carry pairwise-distinct idx
values, every item whose idx is in the parsed idx-to-labels map receives
the service's label pair, and every other item the rule-based pair for its
own title (an item missing from the map degrades only itself). -/
theorem c4_per_item_fallback_amended (rm : RMap) (batch : List (String × String))
    (text : String) (out : List JVal) (got : List (JVal × (JVal × JVal)))
    (hparse : ensure_json_array text = some (JVal.jarr out))
    (hgot : buildGot out = Except.ok got)
    (hnodup : (batch.map Prod.fst).Nodup)
    (it : String × String) (hit : it ∈ batch) :
    rmLookup (processBatch rm batch (some text)) it.1 =
      some ((gotLookup got it.1).getD (fbPair it.2)) := by
  simp only [processBatch, hparse, hgot]
  rw [foldl_write_eq batch Prod.fst (fun it => (gotLookup got it.1).getD (fbPair it.2)) rm,
    foldl_dInsert_lookup]
  have hkeys : ((batch.map (fun it =>
      (it.1, (gotLookup got it.1).getD (fbPair it.2)))).map Prod.fst).Nodup := by
    rw [List.map_map]
    exact hnodup
  have hw : (it.1, (gotLookup got it.1).getD (fbPair it.2)) ∈
      batch.map (fun it => (it.1, (gotLookup got it.1).getD (fbPair it.2))) :=
    List.mem_map.mpr ⟨it, hit, rfl⟩
  have := find?_reverse_of_nodup _ hkeys _ hw
  rw [this]

/-- Witness for the amended C4: a one-item batch whose idx is returned by
the service. -/
theorem c4_per_item_fallback_amended_witness :
    rmLookup (processBatch [] [("1", "発売")]
      (some "[\x7b\"idx\": \"1\", \"sentiment\": \"P\", \"category\": \"C\"\x7d]")) "1" =
      some ((gotLookup [(JVal.jstr "1", (JVal.jstr "P", JVal.jstr "C"))] "1").getD
        (fbPair "発売")) :=
  c4_per_item_fallback_amended [] [("1", "発売")]
    "[\x7b\"idx\": \"1\", \"sentiment\": \"P\", \"category\": \"C\"\x7d]"
    [JVal.jobj [("idx", JVal.jstr "1"), ("sentiment", JVal.jstr "P"),
      ("category", JVal.jstr "C")]]
    [(JVal.jstr "1", (JVal.jstr "P", JVal.jstr "C"))]
    rfl rfl (by decide) ("1", "発売") (by decide)

/-- C5 counterexample: in
`[{"a": 1}] x } ]` the first well-formed JSON array substring is
`[{"a": 1}]`, but the greedy regex extends the extraction to the last
`}…]`, producing an unparseable text, so `ensure_json_array` raises
instead of returning the first well-formed array. -/
theorem c5_response_parsing_cex :
    specFirstJsonArraySub "[\x7b\"a\": 1\x7d] x \x7d ]" = some "[\x7b\"a\": 1\x7d]" ∧
    ensure_json_array "[\x7b\"a\": 1\x7d] x \x7d ]" = none := by
  exact ⟨rfl, rfl⟩

/-- C5 amended: the extraction takes the substring from the leftmost `[`
followed (after whitespace) by `{` — position proved minimal below — up
to the **last** `]` preceded (after whitespace) by `}`; when no such
pattern exists or the extracted substring fails JSON parsing, the
orchestrator gives the whole batch its rule-based labels, and a failing
batch leaves the processing of every other batch unchanged. -/
theorem c5_response_parsing_amended :
    (∀ s : String, ∀ batch : List (String × String), ∀ rm : RMap,
      ensure_json_array s = none →
      processBatch rm batch (some s) = wholeFb rm batch) ∧
    (∀ l : List Char, ∀ m : List Char, searchFrom l = some m →
      ∃ n, attemptAt (l.drop n) = some m ∧ ∀ n' < n, attemptAt (l.drop n') = none) ∧
    (∀ rm pre b resp post,
      runBatches rm (pre ++ (b, resp) :: post) =
        runBatches (processBatch (runBatches rm pre) b resp) post) := by
  refine ⟨?_, ?_, ?_⟩
  · intro s batch rm h
    simp only [processBatch, h]
  · intro l
    induction l with
    | nil => intro m h; cases h
    | cons c rest ih =>
      intro m h
      unfold searchFrom at h
      cases hatt : attemptAt (c :: rest) with
      | some m0 =>
        rw [hatt] at h
        refine ⟨0, ?_, ?_⟩
        · simpa [hatt] using h
        · intro n' hn'
          omega
      | none =>
        rw [hatt] at h
        obtain ⟨n, h1, h2⟩ := ih m h
        refine ⟨n + 1, by simpa using h1, ?_⟩
        intro n' hn'
        cases n' with
        | zero => simpa using hatt
        | succ n'' =>
          have : n'' < n := by omega
          simpa using h2 n'' this
  · intro rm pre b resp post
    induction pre generalizing rm with
    | nil => rfl
    | cons p pre ih =>
      cases p with
      | mk b0 r0 => exact ih (processBatch rm b0 r0)

/-- Witness for the amended C5: a response with no array pattern makes
the batch fall back whole. -/
theorem c5_response_parsing_amended_witness :
    processBatch [] [("1", "発売")] (some "no json here") =
      wholeFb [] [("1", "発売")] :=
  c5_response_parsing_amended.1 "no json here" [("1", "発売")] [] rfl

/-- C10 counterexample: row 2's title is `発売` with a blank L cell, so
its idx defaults to `"2"`; but row 3's L cell holds the string `"2"`, so
both rows share idx `"2"` and the write-back hands row 2 the labels of
row 3's title `事故` (`ネガティブ`), not its own (`ポジティブ`). -/
theorem c10_idx_default_cex :
    idxFor ["", "2"] 2 = "2" ∧
    labelCells ["", "2"] (rulePath (itemsOf ["発売", "事故"] ["", "2"])) 2 ["発売", "事故"] =
      [(JVal.jstr "ネガティブ", JVal.jstr "その他"),
       (JVal.jstr "ネガティブ", JVal.jstr "その他")] ∧
    fbPair "発売" = (JVal.jstr "ポジティブ", JVal.jstr "その他") ∧
    ("ポジティブ" : String) ≠ "ネガティブ" := by
  refine ⟨rfl, rfl, rfl, by decide⟩

/-- C10 amended: a row whose L cell is missing, empty or whitespace-only
gets the idx `str(rowNumber)` (rows counted from 2) in both the item pass
and the write-back pass, and — provided no other item of the run carries
the same idx — the row receives exactly the label pair computed for its
own item: under the rule-based path its own rule-based pair, and under
the service path the pair its own batch computed for its idx and title
(the service's labels when returned for that idx, else its own rule-based
pair). -/
theorem c10_idx_default_amended :
    (∀ numbers : List String, ∀ i : Nat,
      (numbers.get? (i - 2) = none ∨
        ∃ cell, numbers.get? (i - 2) = some cell ∧ pyStrip cell = "") →
      idxFor numbers i = toString i) ∧
    (∀ titles numbers : List String, ∀ j : Nat, j < titles.length →
      ¬pyStrip (titles.getD j "") = "" →
      ((itemsOf titles numbers).map Prod.fst).Nodup →
      (labelCells numbers (rulePath (itemsOf titles numbers)) 2 titles).getD j
          (JVal.jstr "", JVal.jstr "") = fbPair (titles.getD j "")) ∧
    (∀ titles numbers : List String, ∀ resps : List (Option String), ∀ j : Nat,
      j < titles.length →
      ¬pyStrip (titles.getD j "") = "" →
      ((itemsOf titles numbers).map Prod.fst).Nodup →
      (chunks (itemsOf titles numbers)).length = resps.length →
      ∃ b resp, (b, resp) ∈ (chunks (itemsOf titles numbers)).zip resps ∧
        (idxFor numbers (2 + j), titles.getD j "") ∈ b ∧
        (labelCells numbers (geminiClassify (itemsOf titles numbers) resps) 2
            titles).getD j (JVal.jstr "", JVal.jstr "") =
          batchValue resp (idxFor numbers (2 + j), titles.getD j "")) := by
  refine ⟨?_, ?_, ?_⟩
  · intro numbers i h
    rcases h with hnone | ⟨cell, hcell, hblank⟩
    · simp only [idxFor, hnone]
    · simp only [idxFor, hcell]
      rw [hblank]
      rfl
  · intro titles numbers j hj hne hnodup
    have hneb : ¬(pyStrip (titles.getD j "") == "") := by
      simpa using hne
    rw [labelCells_getD numbers _ 2 titles j hj, if_neg (by simpa using hneb)]
    have hmem := itemsAux_mem numbers titles 2 j hj hneb
    unfold rulePath
    rw [foldl_write_eq (itemsOf titles numbers) Prod.fst (fun it => fbPair it.2) [],
      foldl_dInsert_lookup]
    have hkeys : (((itemsOf titles numbers).map (fun it => (it.1, fbPair it.2))).map
        Prod.fst).Nodup := by
      rw [List.map_map]
      exact hnodup
    have hw : (idxFor numbers (2 + j), fbPair (titles.getD j "")) ∈
        (itemsOf titles numbers).map (fun it => (it.1, fbPair it.2)) :=
      List.mem_map.mpr ⟨(idxFor numbers (2 + j), titles.getD j ""), hmem, rfl⟩
    have := find?_reverse_of_nodup _ hkeys _ hw
    rw [this]
    rfl
  · intro titles numbers resps j hj hne hnodup hlen
    have hneb : ¬(pyStrip (titles.getD j "") == "") := by
      simpa using hne
    have hmem := itemsAux_mem numbers titles 2 j hj hneb
    obtain ⟨b, resp, hpair, hitb, hlook⟩ :=
      geminiClassify_lookup (itemsOf titles numbers) resps hnodup hlen
        (idxFor numbers (2 + j), titles.getD j "") hmem
    refine ⟨b, resp, hpair, hitb, ?_⟩
    rw [labelCells_getD numbers _ 2 titles j hj, if_neg (by simpa using hneb), hlook]
    rfl

/-- Witness for the amended C10: a single row with a blank L cell, in the
rule-based path and in a one-batch service run whose response is a
transport failure. -/
theorem c10_idx_default_amended_witness :
    idxFor [] 2 = "2" ∧
    (labelCells [] (rulePath (itemsOf ["発売"] [])) 2 ["発売"]).getD 0
      (JVal.jstr "", JVal.jstr "") = fbPair "発売" ∧
    (∃ b resp, (b, resp) ∈ (chunks (itemsOf ["発売"] [])).zip [(none : Option String)] ∧
      (idxFor [] 2, "発売") ∈ b ∧
      (labelCells [] (geminiClassify (itemsOf ["発売"] []) [none]) 2
          ["発売"]).getD 0 (JVal.jstr "", JVal.jstr "") =
        batchValue resp (idxFor [] 2, "発売")) :=
  ⟨c10_idx_default_amended.1 [] 2 (Or.inl rfl),
   c10_idx_default_amended.2.1 ["発売"] [] 0 (by decide) (by decide) (by decide),
   c10_idx_default_amended.2.2 ["発売"] [] [none] 0 (by decide) (by decide) (by decide)
     (by decide)⟩

end YahooCut
